import Mathlib

/-!
Shallow embedding of the rhythm-gate primitives, the named-counter registry and
the pattern-iterator rewind logic of the Topos live-coding sequencer
(src/API.ts and src/classes/ZPlayer.ts), together with theorems settling the
specification claims about them.

JavaScript numbers are modelled as rationals where fractional values occur
(counter values, `mod`/`div` arguments) and as naturals/integers where the code
only ever sees integers (pulse counts, indices).  JavaScript `%` is a
truncating remainder whose sign follows the dividend, and `x % 0` is `NaN`
(so `x % 0 === 0` is `false`); the embeddings of each use site note how this
is reflected.
-/

namespace Topos

/-- Musical position of the clock: current bar, beat, and pulse within the
beat (the clock's `time_position` record). -/
structure TimePosition where
  bar : ℕ
  beat : ℕ
  pulse : ℕ
deriving DecidableEq

/-- The fields of the transport clock read by the functions under study:
`pulses_since_origin`, `ppqn`, `bpm`, `time_position` and
`next_beat_in_ticks`. -/
structure ClockState where
  pulses_since_origin : ℕ
  ppqn : ℕ
  bpm : ℚ
  time_position : TimePosition
  next_beat_in_ticks : ℕ
deriving DecidableEq

/-- API accessor `epulse()`: pulses elapsed since the origin of time. -/
def epulse (clock : ClockState) : ℕ :=
  clock.pulses_since_origin

/-- JavaScript test `a % d === 0` for a nonnegative integer `a` and an integer
`d`.  When `d = 0` the JS remainder is `NaN` and the comparison is `false`;
otherwise the JS remainder (sign of the dividend, here nonnegative) is zero
exactly when `a % |d| = 0`. -/
def jsRemZeroTest (a : ℕ) (d : ℤ) : Bool :=
  if d = 0 then false else a % d.natAbs == 0

/-- API `mod(...n)` (src/API.ts): maps each value to the test
`epulse() % Math.floor(value * ppqn) === 0` and ORs the results with
`results.some(v => v === true)`. -/
def mod (clock : ClockState) (n : List ℚ) : Bool :=
  let results : List Bool :=
    n.map (fun value =>
      jsRemZeroTest (epulse clock) (Int.floor (value * (clock.ppqn : ℚ))))
  results.any (fun value => value == true)

/-- API `div(chunk)` (src/API.ts): `current_chunk` is
`Math.floor(time_pos / Math.floor(chunk * ppqn))` and the result is
`current_chunk % 2 === 0`.  When the inner floor is `0` the JS quotient is
`Infinity` or `NaN`, whose floor and remainder are `NaN`, so the comparison is
`false`.  Otherwise `Math.floor` of the real quotient is floor division
(`Int.fdiv`), and the JS test `x % 2 === 0` holds exactly when `x` is even,
which is what `x % 2 == 0` on `ℤ` decides. -/
def div (clock : ClockState) (chunk : ℚ) : Bool :=
  let time_pos := epulse clock
  let d : ℤ := Int.floor (chunk * (clock.ppqn : ℚ))
  if d = 0 then false
  else Int.fdiv (time_pos : ℤ) d % 2 == 0

/-- API `onbar(n, ...bar)` (src/API.ts): builds `bar_list = [1..n]` and returns
`bar.some(b => bar_list.includes(b % n))`.  The clock parameter is taken (the
method closes over the application) but the body never reads it.  For `n = 0`
the JS remainder is `NaN`, never a member of the empty `bar_list`, matching
this embedding. -/
def onbar (clock : ClockState) (n : ℕ) (bar : List ℕ) : Bool :=
  let bar_list := (List.range n).map (fun i => i + 1)
  bar.any (fun b => bar_list.contains (b % n))

/-- Helper `startsDescent(list, i)` inside `_euclidean_cycle` (src/API.ts):
tests `list[i] > list[(i + 1) % list.length]`.  All call sites index within
bounds; the `getD` default is never hit there. -/
def startsDescent (list : List ℤ) (i : ℕ) : Bool :=
  let length := list.length
  let nextIndex := (i + 1) % length
  list.getD i 0 > list.getD nextIndex 0

/-- API `_euclidean_cycle(pulses, length, rotate)` (src/API.ts).  The
`resList` entry for index `i` is `(((pulses * (i - 1)) % length) + length) %
length` with the truncating JS remainder (`Int.tmod`).  The JS rotation
`cycle.slice(rotate).concat(cycle.slice(0, rotate))` is
`cycle.drop k ++ cycle.take k`, where for a negative `rotate` the slice start
`k` is `length - min length |rotate|` (JS slice semantics). -/
def _euclidean_cycle (pulses : ℕ) (length : ℕ) (rotate : ℤ) : List Bool :=
  if pulses = length then List.replicate length true
  else if pulses ≥ length then [true]
  else
    let resList : List ℤ :=
      (List.range length).map (fun i =>
        (((pulses : ℤ) * ((i : ℤ) - 1)).tmod (length : ℤ) + (length : ℤ)).tmod
          (length : ℤ))
    let cycle := (List.range resList.length).map (fun i => startsDescent resList i)
    if rotate ≠ 0 then
      let k := if 0 ≤ rotate then rotate.toNat
               else cycle.length - min cycle.length rotate.natAbs
      cycle.drop k ++ cycle.take k
    else cycle

/-- API `euclid(iterator, pulses, length, rotate)` (src/API.ts): element
`iterator % length` of the Euclidean cycle.  An out-of-range JS index yields
`undefined`, which is falsy; `getD _ false` reflects that. -/
def euclid (iterator : ℕ) (pulses : ℕ) (length : ℕ) (rotate : ℤ) : Bool :=
  (_euclidean_cycle pulses length rotate).getD (iterator % length) false

/-- JavaScript `n.toString(2)` for a natural number: the most-significant-first
binary digit string, which is `"0"` for `0` and otherwise the reverse of the
little-endian digit list `Nat.digits 2 n`. -/
def jsToStringBase2 (n : ℕ) : List ℕ :=
  if n = 0 then [0] else (Nat.digits 2 n).reverse

/-- API `bin(iterator, n)` (src/API.ts): converts `n` to its binary digit
string, maps each digit character to the test `x === "1"`, and returns entry
`iterator % tobin.length`. -/
def bin (iterator : ℕ) (n : ℕ) : Bool :=
  let tobin : List Bool := (jsToStringBase2 n).map (fun x => x == 1)
  tobin.getD (iterator % tobin.length) false

/-- One entry of the named-counter registry: `{value, step, limit}` where
`limit` may be `undefined` (src/API.ts, `counter`). -/
structure CounterEntry where
  value : ℚ
  step : ℚ
  limit : Option ℚ
deriving DecidableEq

/-- The counter registry `this.counters`, keyed by name. -/
abbrev Registry : Type := String → Option CounterEntry

/-- Registry with no entries (a fresh `UserAPI`). -/
def emptyRegistry : Registry := fun _ => none

/-- Body of API `counter(name, limit, step)` (src/API.ts) acting on the entry
stored under `name` (`none` when absent).  Returns the updated entry and the
returned value.  On a missing entry it seeds `{value: 0, step: step ?? 1,
limit}` and returns the seeded (unincremented) value.  Otherwise, in source
order: if the stored limit differs from the `limit` argument (`!==`, where
`undefined` is modelled by `none`), reset `value` to `0` and store the new
limit; if the stored step differs from the `step` argument (a stored number
always differs from an `undefined` argument), store `step ?? storedStep`;
add the step to the value; if the limit is defined and exceeded, reset the
value to `0`; return the value. -/
def counterUpdate (st : Option CounterEntry) (limit : Option ℚ) (step : Option ℚ) :
    CounterEntry × ℚ :=
  match st with
  | none =>
      let e : CounterEntry := { value := 0, step := step.getD 1, limit := limit }
      (e, e.value)
  | some e0 =>
      let e1 := if e0.limit ≠ limit then { e0 with value := 0, limit := limit } else e0
      let e2 := if some e1.step ≠ step then { e1 with step := step.getD e1.step } else e1
      let e3 := { e2 with value := e2.value + e2.step }
      let e4 := if (match e3.limit with
                    | some l => decide (e3.value > l)
                    | none => false)
                then { e3 with value := 0 } else e3
      (e4, e4.value)

/-- API `counter(name, limit, step)` (src/API.ts): updates the registry at
`name` via `counterUpdate` and returns the new registry with the returned
value. -/
def counter (reg : Registry) (name : String) (limit : Option ℚ) (step : Option ℚ) :
    Registry × ℚ :=
  let r := counterUpdate (reg name) limit step
  (fun m => if m = name then some r.1 else reg m, r.2)

/-- Repeated calls `counter(name, limit, step)` starting from a fresh registry;
`counterCalls name limit step k` is the registry and returned value after the
call numbered `k` (zero-based). -/
def counterCalls (name : String) (limit step : Option ℚ) : ℕ → Registry × ℚ
  | 0 => counter emptyRegistry name limit step
  | k + 1 => counter (counterCalls name limit step k).1 name limit step

/-- Mutable fields of a `Player` pattern iterator (src/classes/ZPlayer.ts)
read or written by `areWeThereYet`.  The external zifferjs cursor is abstracted
by the boolean `ziffersNotStarted` (the value of `this.ziffers.notStarted()`)
and by `currentDuration` (the duration of `this.current`, `none` while
`this.current` is still unset, i.e. falsy). -/
structure PlayerState where
  firstCallTime : ℕ
  lastCallTime : ℕ
  waitTime : ℕ
  index : ℤ
  played : Bool
  ziffersNotStarted : Bool
  currentDuration : Option ℚ
deriving DecidableEq

/-- Field initializers of a freshly constructed `Player`
(src/classes/ZPlayer.ts lines 12-19): `firstCallTime = 0`, `lastCallTime = 0`,
`waitTime = 0`, `played = false`, `index = -1`, and `this.current` unset. -/
def initPlayer (ziffersNotStarted : Bool) : PlayerState :=
  { firstCallTime := 0
    lastCallTime := 0
    waitTime := 0
    index := -1
    played := false
    ziffersNotStarted := ziffersNotStarted
    currentDuration := none }

/-- Modelled from the spec: the transport clock's `convertPulseToSecond`
(the Clock class is not under src/; only its callers are).  The spec defines
`pulseToSeconds(p) = p * pulse_duration` with
`pulse_duration = 60 / (bpm * ppqn)`. -/
def convertPulseToSecond (clock : ClockState) (p : ℕ) : ℚ :=
  (p : ℚ) * (60 / (clock.bpm * (clock.ppqn : ℚ)))

/-- Rewind guard at the top of `areWeThereYet` (src/classes/ZPlayer.ts lines
58-63): if `pulses_since_origin < lastCallTime`, set `lastCallTime = 0` and
`index = 0` before the due-ness computation. -/
def rewindCheck (st : PlayerState) (clock : ClockState) : PlayerState :=
  if clock.pulses_since_origin < st.lastCallTime then
    { st with lastCallTime := 0, index := 0 }
  else st

/-- API `areWeThereYet()` of a `Player` (src/classes/ZPlayer.ts): after the
rewind guard, `howAboutNow` is true when either the pattern has not started
and the upcoming pulse reaches the next beat boundary past any wait window, or
the pattern is playing and the upcoming pulse's projected time reaches the end
time of the current element; the call count `index` is incremented when due,
and `firstCallTime` is recorded on the starting call.  Returns the due flag
together with the updated player state. -/
def areWeThereYet (st0 : PlayerState) (clock : ClockState) : Bool × PlayerState :=
  let st := rewindCheck st0 clock
  let howAboutNow : Bool :=
    (st.ziffersNotStarted &&
      (clock.time_position.pulse == 1 ||
        decide (clock.pulses_since_origin + 1 ≥ clock.next_beat_in_ticks)) &&
      decide (clock.pulses_since_origin + 1 ≥ st.firstCallTime + st.waitTime))
    ||
    (match st.currentDuration with
     | some dur =>
         decide (convertPulseToSecond clock (clock.pulses_since_origin + 1) ≥
           convertPulseToSecond clock st.lastCallTime +
             dur * 4 * convertPulseToSecond clock clock.ppqn)
     | none => false)
  let st1 := { st with index := if howAboutNow then st.index + 1 else st.index }
  let st2 := if howAboutNow && st1.ziffersNotStarted
             then { st1 with firstCallTime := clock.pulses_since_origin + 1 }
             else st1
  (howAboutNow, st2)

/-- API `Array.prototype.palindrome` (src/API.ts): `left_to_right` copies the
receiver, then `this.reverse()` reverses the receiver in place and
`right_to_left` copies the reversed receiver; the method returns
`left_to_right.concat(right_to_left)`.  Modelled with explicit state passing:
the result is the returned array paired with the receiver's contents after the
call. -/
def palindrome {α : Type} (a : List α) : List α × List α :=
  let left_to_right := a
  let receiverAfterReverse := a.reverse
  let right_to_left := receiverAfterReverse
  (left_to_right ++ right_to_left, receiverAfterReverse)

/-- Reading an index of a reversed list: for `i < l.length`,
`l.reverse.getD i d = l.getD (l.length - 1 - i) d`. -/
theorem reverse_getD {α : Type} (l : List α) (d : α) (i : ℕ) (h : i < l.length) :
    l.reverse.getD i d = l.getD (l.length - 1 - i) d := by
  rw [List.getD_eq_getElem _ _ (by simpa using h),
      List.getD_eq_getElem _ _ (by omega)]
  exact List.getElem_reverse (by simpa using h)

/-- C3: for every value `v` and clock state, if `floor(v * ppqn) = 0` then
`mod(v)` evaluates to the defined boolean `false` (the degenerate modulus is
"never true"), with no division or modulo by zero performed. -/
theorem mod_degenerate_is_false (clock : ClockState) (v : ℚ)
    (h : Int.floor (v * (clock.ppqn : ℚ)) = 0) : mod clock [v] = false := by
  simp only [mod, List.map_cons, List.map_nil]
  rw [h]
  rfl

theorem mod_degenerate_is_false_witness :
    mod ⟨17, 48, 120, ⟨1, 1, 0⟩, 0⟩ [0] = false :=
  mod_degenerate_is_false ⟨17, 48, 120, ⟨1, 1, 0⟩, 0⟩ 0 (by norm_num)

/-- C2: the code of `onbar` contradicts the claim.  `onbar(1, 1)` is `false`
for every clock state (in particular at bar 1, where the claim requires
`true`: the current bar reduced into `[1..1]` is `1` and matches the target),
and more generally the result of `onbar` never depends on the clock, while the
claim says it depends on the current bar. -/
theorem onbar_ignores_current_bar :
    (∀ clock : ClockState, onbar clock 1 [1] = false) ∧
    (∀ (c1 c2 : ClockState) (n : ℕ) (bars : List ℕ),
        onbar c1 n bars = onbar c2 n bars) :=
  ⟨fun _ => rfl, fun _ _ _ _ => rfl⟩

/-- C6: `euclid(i, 5, 8, 0)` for `i = 0..7` is the fixed 8-element boolean
cycle `[true, false, true, false, true, true, false, true]`, which contains
exactly 5 `true` entries, and the cycle repeats with period 8 in `i` (the
function depends only on its arguments). -/
theorem euclid_five_eight_cycle :
    (List.range 8).map (fun i => euclid i 5 8 0) =
        [true, false, true, false, true, true, false, true] ∧
    ((List.range 8).map (fun i => euclid i 5 8 0)).count true = 5 ∧
    ∀ i : ℕ, euclid (i + 8) 5 8 0 = euclid i 5 8 0 := by
  refine ⟨by decide, by decide, fun i => ?_⟩
  simp [euclid, Nat.add_mod_right]

/-- C9: when the number of pulses equals the cycle length `n ≥ 1`, the
Euclidean cycle is all-`true` regardless of the rotation argument, so
`euclid(i, n, n, r)` returns `true` for every iterator `i`. -/
theorem euclid_full_cycle_all_true (n : ℕ) (r : ℤ) (i : ℕ) (hn : 1 ≤ n) :
    euclid i n n r = true := by
  unfold euclid _euclidean_cycle
  rw [if_pos rfl]
  have hlt : i % n < n := Nat.mod_lt _ hn
  rw [List.getD_eq_getElem _ _ (by simpa using hlt)]
  simp

theorem euclid_full_cycle_all_true_witness : euclid 7 3 3 (-2) = true :=
  euclid_full_cycle_all_true 3 (-2) 7 (by norm_num)

/-- C10: `a.palindrome()` returns a new list holding the original contents of
`a` followed by those contents in reverse order, and as a side effect the
receiver itself ends up reversed: the returned list has length `2 * |a|`, its
first half is `a` and its second half is `a` reversed, and the receiver after
the call is `a` reversed. -/
theorem palindrome_spec (α : Type) (a : List α) (d : α) (i : ℕ) :
    (palindrome a).1 = a ++ a.reverse ∧
    (palindrome a).2 = a.reverse ∧
    (palindrome a).1.length = 2 * a.length ∧
    (i < a.length → (palindrome a).1.getD i d = a.getD i d) ∧
    (i < a.length →
      (palindrome a).1.getD (a.length + i) d = a.getD (a.length - 1 - i) d) ∧
    (i < a.length → (palindrome a).2.getD i d = a.getD (a.length - 1 - i) d) := by
  refine ⟨rfl, rfl, by simp [palindrome, two_mul], ?_, ?_, ?_⟩
  · intro h
    show (a ++ a.reverse).getD i d = a.getD i d
    rw [List.getD_eq_getElem _ _ (by simp; omega),
        List.getD_eq_getElem _ _ (by omega)]
    exact List.getElem_append_left (by omega)
  · intro h
    show (a ++ a.reverse).getD (a.length + i) d = a.getD (a.length - 1 - i) d
    have h1 : (a ++ a.reverse).getD (a.length + i) d = a.reverse.getD i d := by
      rw [List.getD_eq_getElem _ _ (by simp; omega),
          List.getD_eq_getElem _ _ (by simpa using h)]
      rw [List.getElem_append_right (by omega)]
      congr 1
      omega
    rw [h1]
    exact reverse_getD a d i h
  · intro h
    exact reverse_getD a d i h

theorem palindrome_spec_witness :
    (palindrome [1, 2, 3]).2.getD 0 0 =
      [1, 2, 3].getD ([1, 2, 3].length - 1 - 0) 0 :=
  (palindrome_spec ℕ [1, 2, 3] 0 0).2.2.2.2.2 (by decide)

/-- Characterisation of the JS remainder-is-zero test: it succeeds exactly
when the divisor is nonzero and divides the dividend (equivalently, the
integer remainder is zero). -/
theorem jsRemZeroTest_eq_true (a : ℕ) (d : ℤ) :
    jsRemZeroTest a d = true ↔ d ≠ 0 ∧ (a : ℤ) % d = 0 := by
  unfold jsRemZeroTest
  split
  · next h => simp [h]
  · next h =>
    simp only [h, ne_eq, not_false_iff, true_and, beq_iff_eq]
    rw [← Nat.dvd_iff_mod_eq_zero]
    constructor
    · intro hdvd
      exact Int.emod_eq_zero_of_dvd (Int.natAbs_dvd.mp (Int.natCast_dvd_natCast.mpr hdvd))
    · intro hmod
      exact Int.natCast_dvd_natCast.mp (Int.natAbs_dvd.mpr (Int.dvd_of_emod_eq_zero hmod))

/-- C5: `mod(...values)` is true exactly when some supplied value has
`pulses_since_origin % floor(value * ppqn) = 0` for a nondegenerate modulus
(the degenerate `floor(value * ppqn) = 0` case contributes `false`, per the
spec's documented fallback); and for `ppqn ≥ 1`, `mod(1)` is true exactly at
the pulse counts that are multiples of `ppqn`. -/
theorem mod_gate_spec :
    (∀ (clock : ClockState) (vs : List ℚ), vs ≠ [] →
        (mod clock vs = true ↔
          ∃ v ∈ vs, Int.floor (v * (clock.ppqn : ℚ)) ≠ 0 ∧
            (clock.pulses_since_origin : ℤ) % Int.floor (v * (clock.ppqn : ℚ)) = 0)) ∧
    (∀ clock : ClockState, 1 ≤ clock.ppqn →
        (mod clock [1] = true ↔ clock.ppqn ∣ clock.pulses_since_origin)) := by
  have key : ∀ (clock : ClockState) (vs : List ℚ),
      mod clock vs = true ↔
        ∃ v ∈ vs, Int.floor (v * (clock.ppqn : ℚ)) ≠ 0 ∧
          (clock.pulses_since_origin : ℤ) % Int.floor (v * (clock.ppqn : ℚ)) = 0 := by
    intro clock vs
    simp only [mod, List.any_eq_true, List.mem_map, beq_iff_eq, epulse]
    constructor
    · rintro ⟨x, ⟨v, hv, hFv⟩, hx⟩
      subst hx
      exact ⟨v, hv, (jsRemZeroTest_eq_true _ _).mp hFv⟩
    · rintro ⟨v, hv, ht⟩
      exact ⟨true, ⟨v, hv, (jsRemZeroTest_eq_true _ _).mpr ht⟩, rfl⟩
  constructor
  · intro clock vs _
    exact key clock vs
  · intro clock hq
    rw [key clock [1]]
    have hfl : Int.floor ((1 : ℚ) * (clock.ppqn : ℚ)) = (clock.ppqn : ℤ) := by
      rw [one_mul, Int.floor_natCast]
    have hne : (clock.ppqn : ℤ) ≠ 0 := by
      simp only [ne_eq, Nat.cast_eq_zero]
      omega
    constructor
    · rintro ⟨v, hv, -, hmod⟩
      simp only [List.mem_singleton] at hv
      subst hv
      rw [hfl] at hmod
      exact_mod_cast Int.dvd_of_emod_eq_zero hmod
    · intro hdvd
      refine ⟨1, List.mem_singleton_self 1, ?_, ?_⟩
      · rw [hfl]; exact hne
      · rw [hfl]
        exact Int.emod_eq_zero_of_dvd (Int.natCast_dvd_natCast.mpr hdvd)

theorem mod_gate_spec_witness :
    mod ⟨4, 2, 120, ⟨1, 1, 0⟩, 0⟩ [1] = true :=
  (mod_gate_spec.2 ⟨4, 2, 120, ⟨1, 1, 0⟩, 0⟩ (by norm_num)).mpr (by norm_num)

/-- Characterisation of `div` for a positive effective modulus: the gate is
true exactly when the chunk index `floor(pulses / floor(chunk * ppqn))` is
even. -/
theorem div_even_char (clock : ClockState) (chunk : ℚ)
    (hd : 0 < Int.floor (chunk * (clock.ppqn : ℚ))) :
    (div clock chunk = true ↔
      Even (clock.pulses_since_origin /
        (Int.floor (chunk * (clock.ppqn : ℚ))).toNat)) := by
  simp only [div, epulse]
  rw [if_neg (by omega)]
  rw [Int.fdiv_eq_ediv _ (le_of_lt hd)]
  have hcast : (clock.pulses_since_origin : ℤ) / Int.floor (chunk * (clock.ppqn : ℚ)) =
      ((clock.pulses_since_origin /
        (Int.floor (chunk * (clock.ppqn : ℚ))).toNat : ℕ) : ℤ) := by
    conv_lhs => rw [← Int.toNat_of_nonneg (le_of_lt hd)]
    rw [Int.ofNat_ediv]
  rw [hcast]
  simp only [beq_iff_eq]
  rw [← Int.even_iff]
  exact Int.even_coe_nat _

/-- C7: for a chunk with positive effective modulus `floor(chunk * ppqn)`,
`div(chunk)` is true exactly when `floor(pulses / floor(chunk * ppqn))` is
even; and for `ppqn ≥ 1`, `div(2)` is true on the pulse spans
`[4k*ppqn, (4k+2)*ppqn)` and false on `[(4k+2)*ppqn, (4k+4)*ppqn)` for every
`k`, the indefinite flip-flop law. -/
theorem div_flip_flop :
    (∀ (clock : ClockState) (chunk : ℚ), 0 < chunk →
        0 < Int.floor (chunk * (clock.ppqn : ℚ)) →
        (div clock chunk = true ↔
          Even (clock.pulses_since_origin /
            (Int.floor (chunk * (clock.ppqn : ℚ))).toNat))) ∧
    (∀ (clock : ClockState) (k : ℕ), 1 ≤ clock.ppqn →
        (4 * k * clock.ppqn ≤ clock.pulses_since_origin →
          clock.pulses_since_origin < (4 * k + 2) * clock.ppqn →
            div clock 2 = true) ∧
        ((4 * k + 2) * clock.ppqn ≤ clock.pulses_since_origin →
          clock.pulses_since_origin < (4 * k + 4) * clock.ppqn →
            div clock 2 = false)) := by
  have hfl : ∀ q : ℕ, Int.floor ((2 : ℚ) * (q : ℚ)) = ((2 * q : ℕ) : ℤ) := by
    intro q
    rw [show ((2 : ℚ) * (q : ℚ)) = ((2 * q : ℕ) : ℚ) by push_cast; ring,
      Int.floor_natCast]
  constructor
  · intro clock chunk _ hd
    exact div_even_char clock chunk hd
  · intro clock k hq
    have hq0 : 0 < 2 * clock.ppqn := by omega
    have hdpos : 0 < Int.floor ((2 : ℚ) * (clock.ppqn : ℚ)) := by
      rw [hfl]
      exact_mod_cast hq0
    have hchar := div_even_char clock 2 hdpos
    rw [hfl, Int.toNat_natCast] at hchar
    constructor
    · intro hlo hhi
      have hdiv : clock.pulses_since_origin / (2 * clock.ppqn) = 2 * k := by
        have h1 : 2 * k ≤ clock.pulses_since_origin / (2 * clock.ppqn) := by
          rw [Nat.le_div_iff_mul_le hq0]
          calc (2 * k) * (2 * clock.ppqn) = 4 * k * clock.ppqn := by ring
            _ ≤ clock.pulses_since_origin := hlo
        have h2 : clock.pulses_since_origin / (2 * clock.ppqn) < 2 * k + 1 := by
          rw [Nat.div_lt_iff_lt_mul hq0]
          calc clock.pulses_since_origin < (4 * k + 2) * clock.ppqn := hhi
            _ = (2 * k + 1) * (2 * clock.ppqn) := by ring
        omega
      rw [hchar, hdiv]
      exact even_two_mul k
    · intro hlo hhi
      have hdiv : clock.pulses_since_origin / (2 * clock.ppqn) = 2 * k + 1 := by
        have h1 : 2 * k + 1 ≤ clock.pulses_since_origin / (2 * clock.ppqn) := by
          rw [Nat.le_div_iff_mul_le hq0]
          calc (2 * k + 1) * (2 * clock.ppqn) = (4 * k + 2) * clock.ppqn := by ring
            _ ≤ clock.pulses_since_origin := hlo
        have h2 : clock.pulses_since_origin / (2 * clock.ppqn) < 2 * k + 2 := by
          rw [Nat.div_lt_iff_lt_mul hq0]
          calc clock.pulses_since_origin < (4 * k + 4) * clock.ppqn := hhi
            _ = (2 * k + 2) * (2 * clock.ppqn) := by ring
        omega
      have hodd : ¬ Even (clock.pulses_since_origin / (2 * clock.ppqn)) := by
        rw [hdiv]
        rintro ⟨r, hr⟩
        omega
      cases hdivb : div clock 2 with
      | false => rfl
      | true => exact absurd (hchar.mp hdivb) hodd

theorem div_flip_flop_witness :
    div ⟨1, 2, 120, ⟨1, 1, 0⟩, 0⟩ 1 = true ∧
    div ⟨5, 2, 120, ⟨1, 1, 0⟩, 0⟩ 2 = false := by
  constructor
  · apply (div_flip_flop.1 ⟨1, 2, 120, ⟨1, 1, 0⟩, 0⟩ 1 (by norm_num)
      (by norm_num)).mpr
    norm_num
    decide
  · exact (div_flip_flop.2 ⟨5, 2, 120, ⟨1, 1, 0⟩, 0⟩ 0 (by decide)).2
      (by decide) (by decide)

/-- The little-endian binary digit at position `j` of `n` is
`n / 2 ^ j % 2` (with the `getD` default `0` covering positions past the
most significant digit). -/
theorem digits_two_getD (j : ℕ) :
    ∀ n : ℕ, (Nat.digits 2 n).getD j 0 = n / 2 ^ j % 2 := by
  induction j with
  | zero =>
    intro n
    cases n with
    | zero => simp
    | succ m =>
      rw [@Nat.digits_def' 2 (by norm_num) (m + 1) (Nat.succ_pos m)]
      simp
  | succ j ihj =>
    intro n
    cases n with
    | zero => simp
    | succ m =>
      rw [@Nat.digits_def' 2 (by norm_num) (m + 1) (Nat.succ_pos m)]
      rw [List.getD_cons_succ, ihj ((m + 1) / 2), Nat.div_div_eq_div_mul,
        pow_succ, mul_comm (2 ^ j) 2]

/-- C8: for `n ≥ 1`, `bin(i, n)` is digit `i % digitCount` of the binary
expansion of `n`, most significant digit first, where `digitCount` is
`Nat.log2 n + 1`; arithmetically, digit `j` (MSB first) is
`n / 2 ^ (log2 n - j) % 2`.  In particular `bin(i, 34)` for `i = 0..5` reads
off `"100010"`. -/
theorem bin_msb_digit_spec :
    ((List.range 6).map (fun i => bin i 34) =
        [true, false, false, false, true, false]) ∧
    (∀ (i n : ℕ), 1 ≤ n →
        bin i n =
          decide (n / 2 ^ (Nat.log2 n - i % (Nat.log2 n + 1)) % 2 = 1)) := by
  refine ⟨by norm_num [List.range_succ, bin, jsToStringBase2], ?_⟩
  intro i n hn
  have hne : n ≠ 0 := by omega
  have hlen : (Nat.digits 2 n).length = Nat.log2 n + 1 := by
    rw [Nat.digits_len 2 n (by norm_num) hne, Nat.log2_eq_log_two]
  simp only [bin, jsToStringBase2, if_neg hne, List.length_map,
    List.length_reverse, hlen]
  have hj : i % (Nat.log2 n + 1) < Nat.log2 n + 1 := Nat.mod_lt _ (by omega)
  rw [List.getD_eq_getElem _ _ (by
    simp only [List.length_map, List.length_reverse, hlen]
    exact hj)]
  rw [List.getElem_map, List.getElem_reverse (by
    simp only [List.length_reverse, hlen]
    exact hj)]
  have hidx : (Nat.digits 2 n).length - 1 - i % (Nat.log2 n + 1) =
      Nat.log2 n - i % (Nat.log2 n + 1) := by
    rw [hlen]
    omega
  rw [← List.getD_eq_getElem (Nat.digits 2 n) 0 (by
    rw [hlen] at hidx ⊢
    omega)]
  rw [hidx, digits_two_getD]
  by_cases h1 : n / 2 ^ (Nat.log2 n - i % (Nat.log2 n + 1)) % 2 = 1 <;>
    simp [h1]

theorem bin_msb_digit_spec_witness :
    bin 2 34 = decide (34 / 2 ^ (Nat.log2 34 - 2 % (Nat.log2 34 + 1)) % 2 = 1) :=
  bin_msb_digit_spec.2 2 34 (by norm_num)

/-- Invariant of the repeated call `counter("x", 3)` with default step: after
the call numbered `k` (zero-based) the stored entry is
`{value: k % 4, step: 1, limit: 3}` and the call returned `k % 4`. -/
theorem counterCalls_x_inv (k : ℕ) :
    (counterCalls "x" (some 3) none k).1 "x" =
        some ⟨((k % 4 : ℕ) : ℚ), 1, some 3⟩ ∧
    (counterCalls "x" (some 3) none k).2 = ((k % 4 : ℕ) : ℚ) := by
  induction k with
  | zero =>
    constructor
    · norm_num [counterCalls, counter, counterUpdate, emptyRegistry]
    · norm_num [counterCalls, counter, counterUpdate, emptyRegistry]
  | succ k ih =>
    obtain ⟨hreg, -⟩ := ih
    have h4 : k % 4 = 0 ∨ k % 4 = 1 ∨ k % 4 = 2 ∨ k % 4 = 3 := by omega
    rcases h4 with h | h | h | h
    · have h' : (k + 1) % 4 = 1 := by omega
      rw [h] at hreg
      constructor <;>
        norm_num [counterCalls, counter, counterUpdate, hreg, h']
    · have h' : (k + 1) % 4 = 2 := by omega
      rw [h] at hreg
      constructor <;>
        norm_num [counterCalls, counter, counterUpdate, hreg, h']
    · have h' : (k + 1) % 4 = 3 := by omega
      rw [h] at hreg
      constructor <;>
        norm_num [counterCalls, counter, counterUpdate, hreg, h']
    · have h' : (k + 1) % 4 = 0 := by omega
      rw [h] at hreg
      constructor <;>
        norm_num [counterCalls, counter, counterUpdate, hreg, h']

/-- C1 counterexample: the very first call of `counter("x", 3)` on a fresh
registry returns `0`, not `1`, so the claimed return sequence
`1, 2, 3, 0, ...` is wrong at its first element. -/
theorem counter_first_call_returns_zero :
    (counterCalls "x" (some 3) none 0).2 = 0 ∧ (0 : ℚ) ≠ 1 := by
  constructor
  · norm_num [counterCalls, counter, counterUpdate, emptyRegistry]
  · norm_num

/-- C1 amended: starting from a fresh registry, `counter("x", 3)` with default
step returns `0` on the first call and then `1, 2, 3, 0, 1, 2, 3, 0, ...`:
the call numbered `k` (zero-based) returns `k % 4`.  And in general, a call on
an existing entry whose stored limit equals the `limit` argument adds the
effective step (the `step` argument if supplied, else the stored step) to the
stored value, wraps the result to `0` when the limit is defined and exceeded,
returns that value, and stores it back. -/
theorem counter_sequence_amended :
    (∀ k : ℕ, (counterCalls "x" (some 3) none k).2 = ((k % 4 : ℕ) : ℚ)) ∧
    (∀ (reg : Registry) (name : String) (e : CounterEntry)
        (limit step : Option ℚ),
        reg name = some e → limit = e.limit →
        (counter reg name limit step).2 =
          (match limit with
           | some l =>
               if e.value + step.getD e.step > l then 0
               else e.value + step.getD e.step
           | none => e.value + step.getD e.step) ∧
        (counter reg name limit step).1 name =
          some { value := (counter reg name limit step).2
                 step := step.getD e.step
                 limit := limit }) := by
  constructor
  · intro k
    exact (counterCalls_x_inv k).2
  · intro reg name e limit step hreg hlim
    subst hlim
    have hupd : counterUpdate (reg name) e.limit step =
        (⟨(match e.limit with
           | some l =>
               if e.value + step.getD e.step > l then 0
               else e.value + step.getD e.step
           | none => e.value + step.getD e.step), step.getD e.step, e.limit⟩,
         (match e.limit with
          | some l =>
              if e.value + step.getD e.step > l then 0
              else e.value + step.getD e.step
          | none => e.value + step.getD e.step)) := by
      rw [hreg]
      rcases e with ⟨v, s0, lim⟩
      cases lim with
      | none =>
        cases step with
        | none => simp [counterUpdate]
        | some s =>
          by_cases hs : s0 = s
          · simp [counterUpdate, hs]
          · simp [counterUpdate, hs]
      | some l =>
        cases step with
        | none =>
          by_cases hgt : v + s0 > l
          · simp [counterUpdate, hgt]
          · simp [counterUpdate, hgt]
        | some s =>
          by_cases hs : s0 = s
          · by_cases hgt : v + s > l
            · simp [counterUpdate, hs, hgt]
            · simp [counterUpdate, hs, hgt]
          · by_cases hgt : v + s > l
            · simp [counterUpdate, hs, hgt]
            · simp [counterUpdate, hs, hgt]
    constructor
    · simp [counter, hupd]
    · simp [counter, hupd]

theorem counter_sequence_amended_witness :
    (counterCalls "x" (some 3) none 5).2 = 1 ∧
    (counter (fun _ => some ⟨2, 1, some 3⟩) "y" (some 3) none).2 = 3 := by
  constructor
  · have h := counter_sequence_amended.1 5
    norm_num at h
    exact h
  · have h := (counter_sequence_amended.2 (fun _ => some ⟨2, 1, some 3⟩) "y"
      ⟨2, 1, some 3⟩ (some 3) none rfl rfl).1
    norm_num at h
    exact h

/-- C4 counterexample: at a clock with `pulses_since_origin = 3` and a player
whose `lastCallTime` is `5` (a rewind), the `areWeThereYet` rewind guard sets
`index` to `0`, whereas the initial sentinel of `index` on a freshly
constructed `Player` is `-1`; the claim that `index` is reset to its initial
sentinel is therefore false at this input. -/
theorem rewind_index_not_initial_sentinel :
    (⟨3, 48, 120, ⟨1, 1, 0⟩, 0⟩ : ClockState).pulses_since_origin <
        (⟨0, 5, 0, 7, false, false, none⟩ : PlayerState).lastCallTime ∧
    (rewindCheck ⟨0, 5, 0, 7, false, false, none⟩
        ⟨3, 48, 120, ⟨1, 1, 0⟩, 0⟩).index = 0 ∧
    (initPlayer true).index = -1 ∧
    (rewindCheck ⟨0, 5, 0, 7, false, false, none⟩
        ⟨3, 48, 120, ⟨1, 1, 0⟩, 0⟩).index ≠ (initPlayer true).index := by
  refine ⟨by decide, rfl, rfl, by decide⟩

/-- C4 amended: on every query, if the clock's `pulses_since_origin` is
strictly less than the stored `lastCallTime`, then before any due-ness
computation the rewind guard resets `lastCallTime` to `0` and `index` to `0`
(not to the fresh-construction sentinel `-1`); consequently the whole
`areWeThereYet` query behaves exactly as if issued from that reset state. -/
theorem rewind_resets_lastCallTime_and_index
    (st : PlayerState) (clock : ClockState)
    (h : clock.pulses_since_origin < st.lastCallTime) :
    rewindCheck st clock = { st with lastCallTime := 0, index := 0 } ∧
    areWeThereYet st clock =
      areWeThereYet { st with lastCallTime := 0, index := 0 } clock := by
  have hrw : rewindCheck st clock = { st with lastCallTime := 0, index := 0 } := by
    simp [rewindCheck, h]
  refine ⟨hrw, ?_⟩
  have hrw2 : rewindCheck { st with lastCallTime := 0, index := 0 } clock =
      { st with lastCallTime := 0, index := 0 } := by
    simp [rewindCheck]
  simp only [areWeThereYet, hrw, hrw2]

theorem rewind_resets_lastCallTime_and_index_witness :
    rewindCheck ⟨2, 9, 1, 5, true, true, none⟩ ⟨4, 48, 120, ⟨1, 1, 0⟩, 0⟩ =
      { (⟨2, 9, 1, 5, true, true, none⟩ : PlayerState) with
          lastCallTime := 0, index := 0 } ∧
    areWeThereYet ⟨2, 9, 1, 5, true, true, none⟩ ⟨4, 48, 120, ⟨1, 1, 0⟩, 0⟩ =
      areWeThereYet { (⟨2, 9, 1, 5, true, true, none⟩ : PlayerState) with
          lastCallTime := 0, index := 0 } ⟨4, 48, 120, ⟨1, 1, 0⟩, 0⟩ :=
  rewind_resets_lastCallTime_and_index ⟨2, 9, 1, 5, true, true, none⟩
    ⟨4, 48, 120, ⟨1, 1, 0⟩, 0⟩ (by decide)

end Topos
